import Mathlib

/-!
Shallow embedding of src/tides.py (class ScrapeTides), the tide-forecast
scraper.  Python strings are modelled as lists of characters, Python
datetime.time values as minutes after midnight (Nat), datetime.date values
as a year/month/day record, dicts as insertion-ordered association lists,
and exceptions as an Except layer.  Heights are carried as rationals: a
height span's text is modelled by its numeric value (a page whose height
text is non-numeric makes the Python code raise ValueError and is outside
the model's input space).
-/

/-- Python exceptions that the embedded fragment can raise. -/
inductive PyErr where
  | indexError
  | typeError
  | attributeError
deriving DecidableEq, Repr

deriving instance DecidableEq for Except

/-- Python strings, modelled as lists of characters. -/
abbrev Str := List Char

/-- The whitespace characters stripped by Python str.strip (ASCII part). -/
def pySpaceChars : List Char := [' ', '\t', '\n', '\x0b', '\x0c', '\r']

def isPySpace (c : Char) : Bool := c ∈ pySpaceChars

/-- Python str.strip(): remove leading and trailing whitespace. -/
def pyStrip (s : Str) : Str :=
  ((s.dropWhile isPySpace).reverse.dropWhile isPySpace).reverse

/-- Python str.split(sep) for a one-character separator. -/
def splitOnChar (c : Char) : Str → List Str
  | [] => [[]]
  | x :: xs =>
    match splitOnChar c xs with
    | [] => [[]]
    | g :: gs => if x = c then [] :: g :: gs else (x :: g) :: gs

/-- Python s[-2:]: the last two characters (the whole string when shorter). -/
def lastTwo (s : Str) : Str := s.drop (s.length - 2)

/-- The inner fix_hour of force_hour_two_digits (src/tides.py lines 47-48). -/
def fix_hour (hr : Str) : Str :=
  if lastTwo hr = ['0', '0'] then ['1', '2'] else lastTwo hr

/-- force_hour_two_digits (src/tides.py lines 46-50).  The two-variable
unpacking of the split raises ValueError unless the split has exactly two
parts; the caller catches that, so the model returns none there. -/
def force_hour_two_digits (time_str : Str) : Option Str :=
  match splitOnChar ':' ('0' :: pyStrip time_str) with
  | [left_part, right_part] => some (fix_hour left_part ++ ':' :: right_part)
  | _ => none

def digitVal (c : Char) : Nat := c.toNat - 48

/-- The %I directive of datetime.strptime: a one- or two-digit hour in
1..12, matched greedily the way CPython's regex (1[0-2]|0[1-9]|[1-9]) is. -/
def parseHour12 : Str → Option (Nat × Str)
  | [] => none
  | [c] => if c.isDigit ∧ 1 ≤ digitVal c then some (digitVal c, []) else none
  | c₁ :: c₂ :: rest =>
    if c₁.isDigit ∧ c₂.isDigit ∧ 1 ≤ digitVal c₁ * 10 + digitVal c₂ ∧
        digitVal c₁ * 10 + digitVal c₂ ≤ 12 then
      some (digitVal c₁ * 10 + digitVal c₂, rest)
    else if c₁.isDigit ∧ 1 ≤ digitVal c₁ then some (digitVal c₁, c₂ :: rest)
    else none

/-- The %M directive of datetime.strptime: two digits 00-59, else one digit. -/
def parseMinute : Str → Option (Nat × Str)
  | [] => none
  | [c] => if c.isDigit then some (digitVal c, []) else none
  | c₁ :: c₂ :: rest =>
    if c₁.isDigit ∧ c₂.isDigit ∧ digitVal c₁ ≤ 5 then
      some (digitVal c₁ * 10 + digitVal c₂, rest)
    else if c₁.isDigit then some (digitVal c₁, c₂ :: rest)
    else none

/-- The %p directive of datetime.strptime: AM or PM, case-insensitive;
returns true for PM. -/
def parseAmPm : Str → Option (Bool × Str)
  | a :: b :: rest =>
    if a.toUpper = 'A' ∧ b.toUpper = 'M' then some (false, rest)
    else if a.toUpper = 'P' ∧ b.toUpper = 'M' then some (true, rest)
    else none
  | _ => none

/-- datetime.strptime(s, TIME_FORMAT).time() with TIME_FORMAT = %I:%M%p
(src/tides.py line 21), as minutes after midnight; none models ValueError. -/
def strptime_time (s : Str) : Option Nat := do
  let (h, s₁) ← parseHour12 s
  match s₁ with
  | ':' :: s₂ => do
    let (m, s₃) ← parseMinute s₂
    let (pm, s₄) ← parseAmPm s₃
    if s₄ = [] then
      let h24 := if pm then (if h = 12 then 12 else h + 12)
                 else (if h = 12 then 0 else h)
      some (h24 * 60 + m)
    else none
  | _ => none

/-- parse_time_str (src/tides.py lines 52-61): hour normalization then
strptime, with any ValueError caught and turned into None. -/
def parse_time_str (time_str : Str) : Option Nat :=
  (force_hour_two_digits time_str).bind strptime_time

/-- A Python datetime.date. -/
structure PDate where
  year : Nat
  month : Nat
  day : Nat
deriving DecidableEq, Repr

/-- adjust_year (src/tides.py lines 63-74). -/
def adjust_year (today : PDate) (date_obj : PDate) : PDate :=
  if today.month = 12 ∧ date_obj.month = 1 then
    { date_obj with year := today.year + 1 }
  else
    { date_obj with year := today.year }

/-- parse_date_str (src/tides.py lines 76-85).  The call to the external
datetime.strptime(date_str, DATE_FORMAT).date() is modelled by its result:
some parsed date (with the library's default year), or none for the
ValueError that the except clause turns into None. -/
def parse_date_str (today : PDate) (strptimeResult : Option PDate) : Option PDate :=
  strptimeResult.map (adjust_year today)

/-- A div element inside a tide-table cell: its text content, and the text
of the first span of class tide-table__value-low, the numeric value of the
first span of class tide-table__height, and the text of the first span of
class tide-table__units, when present. -/
structure DivElem where
  text : Str
  valueSpan : Option Str
  heightSpan : Option ℚ
  unitsSpan : Option String
deriving DecidableEq, Repr

/-- A td element: its class-attribute tokens, text content, and nested divs. -/
structure Td where
  classes : List String
  text : String
  divs : List DivElem
deriving DecidableEq, Repr

def defaultTd : Td := { classes := [], text := "", divs := [] }

/-- A tr element: its class-attribute tokens and its td children. -/
structure Tr where
  classes : List String
  tds : List Td
deriving DecidableEq, Repr

/-- A th element of class tide-table__day: date.fromisoformat of its
data-date attribute, and int of its colspan attribute (0 when absent). -/
structure Th where
  dataDate : PDate
  colspan : Nat
deriving DecidableEq, Repr

/-- The tide table: all tr elements in document order, and the th elements
of class tide-table__day in document order. -/
structure Table where
  rows : List Tr
  ths : List Th
deriving DecidableEq, Repr

/-- A tide reading as built at src/tides.py lines 109/115:
(parse_time_str of the value text, float of the height text, units text). -/
abbrev Reading := Option Nat × ℚ × String

/-- The defaultdict(list) of get_tides, as an insertion-ordered
association list. -/
abbrev TidesMap := List (PDate × List Reading)

instance : DecidableEq TidesMap := List.hasDecEq

/-- Python dict assignment d[k] = v: overwrite in place if the key exists,
otherwise append at the end. -/
def mapAssign (m : TidesMap) (k : PDate) (v : List Reading) : TidesMap :=
  if k ∈ m.map Prod.fst then
    m.map (fun p => if p.1 = k then (k, v) else p)
  else m ++ [(k, v)]

/-- defaultdict(list) access followed by extend: extend in place if the key
exists, otherwise create it at the end with the new readings. -/
def mapExtend (m : TidesMap) (k : PDate) (v : List Reading) : TidesMap :=
  if k ∈ m.map Prod.fst then
    m.map (fun p => if p.1 = k then (p.1, p.2 ++ v) else p)
  else m ++ [(k, v)]

/-- has_tide_info (src/tides.py lines 87-93): does some td of the row carry
the class token tide-table__part--{tide_type}. -/
def has_tide_info (tr : Tr) (tide_type : String) : Bool :=
  tr.tds.any (fun td => ("tide-table__part--" ++ tide_type) ∈ td.classes)

/-- get_value_height_unit (src/tides.py lines 95-100) applied to a whole
td: each find searches the td's descendants independently, so it returns
the first value span, first height span and first units span among the
td's divs. -/
def get_value_height_unit_td (td : Td) : Option Str × Option ℚ × Option String :=
  (td.divs.findSome? (fun d => d.valueSpan),
   td.divs.findSome? (fun d => d.heightSpan),
   td.divs.findSome? (fun d => d.unitsSpan))

/-- get_value_height_unit applied to a single div. -/
def get_value_height_unit_div (d : DivElem) : Option Str × Option ℚ × Option String :=
  (d.valueSpan, d.heightSpan, d.unitsSpan)

/-- get_data (src/tides.py lines 102-118). -/
def get_data (td : Td) : List Reading :=
  if td.divs.length = 1 then
    match get_value_height_unit_td td with
    | (some v, some h, some u) => [(parse_time_str v, h, u)]
    | _ => []
  else if td.divs.length = 2 then
    td.divs.foldl
      (fun data d =>
        match get_value_height_unit_div d with
        | (some v, some h, some u) => data ++ [(parse_time_str v, h, u)]
        | _ => data)
      []
  else []

/-- The separator rows of the table: the find_all at src/tides.py line 129. -/
def sepRows (table : Table) : List Tr :=
  table.rows.filter (fun tr => "tide-table__separator" ∈ tr.classes)

/-- The inner for-loop of get_tides for a day of positive column count
(src/tides.py lines 149-154): consume the next cols cells, extending the
day's readings with each nonempty cell extraction; an index past the end
of tds raises IndexError. -/
def colsLoop (tds : List Td) (dt : PDate) :
    Nat → Nat → TidesMap → Except PyErr (Nat × TidesMap)
  | 0, td_index, tides => .ok (td_index, tides)
  | n + 1, td_index, tides =>
    match tds[td_index]? with
    | none => .error .indexError
    | some td =>
      let data := get_data td
      colsLoop tds dt n (td_index + 1)
        (if data = [] then tides else mapExtend tides dt data)

/-- The while-True loop of get_tides (src/tides.py lines 138-156) for one
qualifying row: when td_index has reached the end of tds the accumulated
dict is returned (the return at line 140, which ends the whole function);
otherwise the next day is looked up in dates_from_table (IndexError when
the days are exhausted) and its cells are consumed. -/
def rowLoop (tds : List Td) :
    List (PDate × Nat) → Nat → TidesMap → Except PyErr TidesMap
  | [], td_index, tides =>
    if tds.length ≤ td_index then .ok tides else .error .indexError
  | (dt, cols) :: rest, td_index, tides =>
    if tds.length ≤ td_index then .ok tides
    else if cols = 0 then
      match tds[td_index]? with
      | none => .error .indexError
      | some td => rowLoop tds rest (td_index + 1) (mapAssign tides dt (get_data td))
    else
      match colsLoop tds dt cols td_index tides with
      | .error e => .error e
      | .ok (td_index', tides') => rowLoop tds rest td_index' tides'

/-- The for-loop over separator rows of get_tides (src/tides.py lines
130-156): rows without low-tide info are skipped; the first qualifying row
runs the while loop, whose only exits are the return (giving the dict) or
an exception, so later rows are never reached; falling off the loop end
returns Python None. -/
def get_tidesGo (dates_from_table : List (PDate × Nat)) :
    List Tr → TidesMap → Except PyErr (Option TidesMap)
  | [], _ => .ok none
  | tr :: rest, tides =>
    if has_tide_info tr "low" then
      match rowLoop tr.tds dates_from_table 0 tides with
      | .error e => .error e
      | .ok tides' => .ok (some tides')
    else get_tidesGo dates_from_table rest tides

/-- get_tides (src/tides.py lines 120-156). -/
def get_tides (table : Table) (dates_from_table : List (PDate × Nat)) :
    Except PyErr (Option TidesMap) :=
  get_tidesGo dates_from_table (sepRows table) []

/-- A sun-row entry appended to times_ in get_rise_and_set: a list of
parsed times (each possibly None). -/
abbrev SunEntry := List (Option Nat)

/-- The sun cells of a row: the find_all at src/tides.py line 160. -/
def sunTds (tr : Tr) : List Td :=
  tr.tds.filter (fun td => "tide-table__part--sun" ∈ td.classes)

/-- The for-loop over sun cells of get_rise_and_set (src/tides.py lines
168-182): empty-text cells are skipped; while sunrise is None the first
div's text is parsed into it (AttributeError when the cell has no div),
then likewise sunset; afterwards each cell contributes the list of parsed
times of all its divs, unless that list is empty or equals [None, None]. -/
def sunLoop :
    List Td → List SunEntry → Option Nat → Option Nat →
    Except PyErr (List SunEntry × Option Nat × Option Nat)
  | [], times_, sunrise, sunset => .ok (times_, sunrise, sunset)
  | td :: rest, times_, sunrise, sunset =>
    if td.text = "" then sunLoop rest times_ sunrise sunset
    else if sunrise = none then
      match td.divs.head? with
      | none => .error .attributeError
      | some d => sunLoop rest times_ (parse_time_str (pyStrip d.text)) sunset
    else if sunset = none then
      match td.divs.head? with
      | none => .error .attributeError
      | some d => sunLoop rest times_ sunrise (parse_time_str (pyStrip d.text))
    else
      let data := td.divs.map (fun d => parse_time_str (pyStrip d.text))
      if data ≠ [] ∧ data ≠ [none, none] then
        sunLoop rest (times_ ++ [data]) sunrise sunset
      else sunLoop rest times_ sunrise sunset

/-- The row loop of get_rise_and_set (src/tides.py lines 159-186): rows
without sun cells are skipped; the first row with sun cells is processed
and its times_ list returned (prepending [sunrise, sunset] when both were
found, Python time objects being always truthy); falling off the loop end
returns Python None. -/
def get_rise_and_setGo : List Tr → Except PyErr (Option (List SunEntry))
  | [] => .ok none
  | tr :: rest =>
    let tds := sunTds tr
    if tds = [] then get_rise_and_setGo rest
    else
      match sunLoop tds [] none none with
      | .error e => .error e
      | .ok (times_, sunrise, sunset) =>
        .ok (some (if sunrise.isSome ∧ sunset.isSome
                   then [sunrise, sunset] :: times_ else times_))

/-- get_rise_and_set (src/tides.py lines 158-186). -/
def get_rise_and_set (table : Table) : Except PyErr (Option (List SunEntry)) :=
  get_rise_and_setGo table.rows

/-- get_dates_from_table (src/tides.py lines 188-199). -/
def get_dates_from_table (table : Table) : List (PDate × Nat) :=
  table.ths.map (fun th => (th.dataDate, th.colspan))

/-- Python comparison a <= b where either side may be None: comparing None
with a time raises TypeError. -/
def pyLE : Option Nat → Option Nat → Except PyErr Bool
  | some a, some b => .ok (decide (a ≤ b))
  | _, _ => .error .typeError

/-- The chained comparison rise_and_set[indx][0] <= tide_time <=
rise_and_set[indx][1] of src/tides.py line 240, with Python's evaluation
order: subscripting None raises TypeError, an index out of range raises
IndexError, and the right operand is only evaluated when the left
comparison holds. -/
def windowTest (rise_and_set : Option (List SunEntry)) (indx : Nat)
    (tide_time : Option Nat) : Except PyErr Bool :=
  match rise_and_set with
  | none => .error .typeError
  | some rs =>
    match rs[indx]? with
    | none => .error .indexError
    | some entry =>
      match entry[0]? with
      | none => .error .indexError
      | some s₀ =>
        match pyLE s₀ tide_time with
        | .error e => .error e
        | .ok false => .ok false
        | .ok true =>
          match entry[1]? with
          | none => .error .indexError
          | some s₁ => pyLE tide_time s₁

/-- The inner for-loop of extract_tides (src/tides.py lines 239-241):
append to filtered_tides[dt] each reading of the day passing windowTest. -/
def filterDay (rise_and_set : Option (List SunEntry)) (indx : Nat) (dt : PDate) :
    List Reading → TidesMap → Except PyErr TidesMap
  | [], filtered => .ok filtered
  | (tide_time, value, units) :: rest, filtered =>
    match windowTest rise_and_set indx tide_time with
    | .error e => .error e
    | .ok true =>
      filterDay rise_and_set indx dt rest (mapExtend filtered dt [(tide_time, value, units)])
    | .ok false => filterDay rise_and_set indx dt rest filtered

/-- The enumerate loop of extract_tides (src/tides.py lines 238-241) over
the date-ordered entries of tides_for_location. -/
def filter_tides_loop (rise_and_set : Option (List SunEntry)) :
    List (PDate × List Reading) → Nat → TidesMap → Except PyErr TidesMap
  | [], _, filtered => .ok filtered
  | (dt, tide_data) :: rest, indx, filtered =>
    match filterDay rise_and_set indx dt tide_data filtered with
    | .error e => .error e
    | .ok filtered' => filter_tides_loop rise_and_set rest (indx + 1) filtered'

/-- extract_tides (src/tides.py lines 225-243) from the located table on:
dates, sun windows and tides are extracted and the daylight filter is run;
a None tides dict makes the .items() call raise AttributeError. -/
def extract_tides_from_table (table : Table) : Except PyErr TidesMap :=
  let dates_from_table := get_dates_from_table table
  match get_rise_and_set table with
  | .error e => .error e
  | .ok rise_and_set =>
    match get_tides table dates_from_table with
    | .error e => .error e
    | .ok none => .error .attributeError
    | .ok (some tides_for_location) =>
      filter_tides_loop rise_and_set tides_for_location 0 []

/-- Number of cells a day column consumes in a tide row: one cell for
column count 0, otherwise the column count itself. -/
def chunkSize (cols : Nat) : Nat := if cols = 0 then 1 else cols

/-- Total number of cells a day-column sequence accounts for. -/
def cellsNeeded (dates : List (PDate × Nat)) : Nat :=
  (dates.map (fun p => chunkSize p.2)).sum

/-- Pure form of colsLoop: fold the extend step over a list of cells. -/
def foldCells (dt : PDate) (cells : List Td) (tides : TidesMap) : TidesMap :=
  cells.foldl
    (fun m td => let data := get_data td
                 if data = [] then m else mapExtend m dt data)
    tides

/-- Pure specification of one qualifying row's processing: each day takes
its chunk of cells from the front; a zero-span day assigns its single
cell's readings, a positive-span day extends with each nonempty cell's
readings in cell order. -/
def rowSpec : List (PDate × Nat) → List Td → TidesMap → TidesMap
  | [], _, tides => tides
  | (dt, cols) :: rest, cells, tides =>
    if cols = 0 then
      rowSpec rest (cells.drop 1) (mapAssign tides dt (get_data (cells.headD defaultTd)))
    else
      rowSpec rest (cells.drop cols) (foldCells dt (cells.take cols) tides)

/-! Concrete fixtures used by witnesses and counterexamples. -/

def dateA : PDate := ⟨2024, 11, 4⟩

def dateB : PDate := ⟨2024, 11, 5⟩

def divLowA : DivElem := ⟨[], some "06:00AM".data, some 1, some "ft"⟩

def divLowB : DivElem := ⟨[], some "05:45PM".data, some 2, some "ft"⟩

def divNoHeight : DivElem := ⟨[], some "01:00PM".data, none, some "ft"⟩

def tdLowA : Td := ⟨["tide-table__part--low"], "", [divLowA]⟩

def tdLowB : Td := ⟨["tide-table__part--low"], "", [divLowB]⟩

def tdThree : Td := ⟨[], "", [divLowA, divLowB, divNoHeight]⟩

def sepRowA : Tr := ⟨["tide-table__separator"], [tdLowA]⟩

def sepRowB : Tr := ⟨["tide-table__separator"], [tdLowB]⟩

def sepRowAB : Tr := ⟨["tide-table__separator"], [tdLowA, tdLowB]⟩

def sepRow3 : Tr := ⟨["tide-table__separator"], [tdLowA, tdLowB, tdLowA]⟩

def sunCell (s : String) : Td := ⟨["tide-table__part--sun"], s, [⟨s.data, none, none, none⟩]⟩

def sunRowAB : Tr := ⟨[], [sunCell "06:00AM", sunCell "05:30PM"]⟩

/-! Specification-side vocabulary for the daylight filter. -/

/-- A raw reading whose time parsed successfully: minutes, height, units. -/
abbrev RawReading := Nat × ℚ × String

/-- Keep a raw reading whose time lies in the inclusive window. -/
def keepR (w : Nat × Nat) (r : RawReading) : Bool :=
  decide (w.1 ≤ r.1) && decide (r.1 ≤ w.2)

def wrapReading (r : RawReading) : Reading := (some r.1, r.2.1, r.2.2)

def wrapDay (p : PDate × List RawReading) : PDate × List Reading :=
  (p.1, p.2.map wrapReading)

/-- The sun-row entry for a proper sunrise/sunset pair. -/
def mkWindowEntry (w : Nat × Nat) : SunEntry := [some w.1, some w.2]

/-- Expected filter output for days zipped with their windows: each day
keeps, in order, exactly the readings inside its inclusive window, and days
keeping nothing produce no entry. -/
def alignedExpected (l : List ((PDate × List RawReading) × (Nat × Nat))) : TidesMap :=
  l.filterMap (fun pw =>
    let kept := pw.1.2.filter (keepR pw.2)
    if kept = [] then none else some (pw.1.1, kept.map wrapReading))

/-! Helper lemmas about characters and the Python string helpers. -/

lemma digit_not_pyspace {c : Char} (h : c.isDigit = true) : isPySpace c = false := by
  rcases Bool.eq_false_or_eq_true (isPySpace c) with ht | hf
  · exfalso
    have hmem : c ∈ pySpaceChars := by simpa [isPySpace] using ht
    fin_cases hmem <;> exact absurd h (by decide)
  · exact hf

lemma digit_ne_colon {c : Char} (h : c.isDigit = true) : c ≠ ':' := by
  intro he
  subst he
  exact absurd h (by decide)

lemma dropWhile_eq_self_of_all {p : Char → Bool} {s : Str}
    (h : ∀ c ∈ s, p c = false) : s.dropWhile p = s := by
  cases s with
  | nil => rfl
  | cons x xs => simp [List.dropWhile_cons, h x (List.mem_cons_self x xs)]

lemma pyStrip_no_space {s : Str} (h : ∀ c ∈ s, isPySpace c = false) : pyStrip s = s := by
  unfold pyStrip
  rw [dropWhile_eq_self_of_all h,
    dropWhile_eq_self_of_all (fun c hc => h c (List.mem_reverse.mp hc)),
    List.reverse_reverse]

lemma splitOnChar_ne_nil (c : Char) (s : Str) : splitOnChar c s ≠ [] := by
  cases s with
  | nil => simp [splitOnChar]
  | cons x xs =>
    unfold splitOnChar
    split
    · simp
    · split <;> simp

lemma splitOnChar_no_sep {c : Char} : ∀ {s : Str}, c ∉ s → splitOnChar c s = [s]
  | [], _ => rfl
  | x :: xs, h => by
    have hx : x ≠ c := fun he => h (he ▸ List.mem_cons_self x xs)
    have ht : c ∉ xs := fun hm => h (List.mem_cons_of_mem x hm)
    simp [splitOnChar, splitOnChar_no_sep ht, hx]

lemma splitOnChar_append {c : Char} :
    ∀ {s₁ : Str} (s₂ : Str), c ∉ s₁ →
      splitOnChar c (s₁ ++ c :: s₂) = s₁ :: splitOnChar c s₂
  | [], s₂, _ => by
    obtain ⟨g, gs, hg⟩ : ∃ g gs, splitOnChar c s₂ = g :: gs := by
      rcases h : splitOnChar c s₂ with _ | ⟨g, gs⟩
      · exact absurd h (splitOnChar_ne_nil c s₂)
      · exact ⟨g, gs, rfl⟩
    simp [splitOnChar, hg]
  | x :: xs, s₂, h => by
    have hx : x ≠ c := fun he => h (he ▸ List.mem_cons_self x xs)
    have ht : c ∉ xs := fun hm => h (List.mem_cons_of_mem x hm)
    simp [splitOnChar, splitOnChar_append s₂ ht, hx]

/-- C9: for every parsable year-less date string, with today's date given:
if today's month is December and the parsed month is January, parse_date_str
returns a date in the current year plus one; otherwise it returns a date in
the current year (month and day taken from the parsed string). -/
theorem parse_date_str_year_inference (today d : PDate) :
    parse_date_str today (some d) =
      some ⟨if today.month = 12 ∧ d.month = 1 then today.year + 1 else today.year,
            d.month, d.day⟩ := by
  simp only [parse_date_str, Option.map_some']
  unfold adjust_year
  split <;> rfl

/-- C8: on a valid 12-hour time string, hour 00 is normalized to hour 12
and every other two-digit hour passes through unchanged (the hour being the
last two digits after left-padding the string with a leading zero). -/
theorem force_hour_two_digits_hour (a b : Char) (r : Str)
    (ha : a.isDigit = true) (hb : b.isDigit = true)
    (hr : ':' ∉ r) (hrs : ∀ c ∈ r, isPySpace c = false) :
    force_hour_two_digits (a :: b :: ':' :: r) =
      some ((if a = '0' ∧ b = '0' then ['1', '2'] else [a, b]) ++ ':' :: r) := by
  have hstrip : pyStrip (a :: b :: ':' :: r) = a :: b :: ':' :: r := by
    apply pyStrip_no_space
    intro c hc
    simp only [List.mem_cons] at hc
    rcases hc with rfl | rfl | rfl | hc
    · exact digit_not_pyspace ha
    · exact digit_not_pyspace hb
    · decide
    · exact hrs c hc
  have hsplit : splitOnChar ':' ('0' :: a :: b :: ':' :: r) = ['0', a, b] :: splitOnChar ':' r := by
    have he : ('0' : Char) :: a :: b :: ':' :: r = ['0', a, b] ++ ':' :: r := rfl
    rw [he]
    apply splitOnChar_append
    intro hm
    simp only [List.mem_cons, List.not_mem_nil, or_false] at hm
    rcases hm with hm | hm | hm
    · exact absurd hm (by decide)
    · exact digit_ne_colon ha hm.symm
    · exact digit_ne_colon hb hm.symm
  unfold force_hour_two_digits
  rw [hstrip, hsplit, splitOnChar_no_sep hr]
  show some (fix_hour ['0', a, b] ++ ':' :: r) = _
  have hfix : fix_hour ['0', a, b] = if a = '0' ∧ b = '0' then ['1', '2'] else [a, b] := by
    unfold fix_hour lastTwo
    simp [List.cons.injEq]
  rw [hfix]

/-- Witness for C8 at a concrete input: hour 00 becomes hour 12. -/
theorem force_hour_two_digits_hour_witness :
    force_hour_two_digits ("00:30AM".data) = some ("12:30AM".data) := by
  have h := force_hour_two_digits_hour '0' '0' ("30AM".data)
    (by decide) (by decide) (by decide) (by decide)
  rw [show ("00:30AM".data) = '0' :: '0' :: ':' :: "30AM".data from rfl, h]
  rfl

/-- C7: get_data on a cell with zero nested div groups yields no readings;
with one complete value/height/unit triple, exactly that reading; with two
complete triples, both readings in order; with one complete and one
incomplete triple (missing height span), only the complete reading. -/
theorem get_data_triple_cases (td₀ td₁ td₂ tdm : Td) (d₁ d₂ di : DivElem)
    (v v' : Str) (q q' : ℚ) (u u' : String)
    (h₀ : td₀.divs = [])
    (h₁ : td₁.divs = [d₁])
    (h₂ : td₂.divs = [d₁, d₂])
    (hm : tdm.divs = [d₁, di])
    (hv : d₁.valueSpan = some v) (hh : d₁.heightSpan = some q)
    (hu : d₁.unitsSpan = some u)
    (hv' : d₂.valueSpan = some v') (hh' : d₂.heightSpan = some q')
    (hu' : d₂.unitsSpan = some u')
    (hdi : di.heightSpan = none) :
    get_data td₀ = [] ∧
    get_data td₁ = [(parse_time_str v, q, u)] ∧
    get_data td₂ = [(parse_time_str v, q, u), (parse_time_str v', q', u')] ∧
    get_data tdm = [(parse_time_str v, q, u)] := by
  refine ⟨?_, ?_, ?_, ?_⟩
  · simp [get_data, h₀]
  · simp [get_data, h₁, get_value_height_unit_td, List.findSome?_cons, hv, hh, hu]
  · simp [get_data, h₂, get_value_height_unit_div, hv, hh, hu, hv', hh', hu']
  · rcases hvi : di.valueSpan with _ | vi <;>
      rcases hui : di.unitsSpan with _ | ui <;>
        simp [get_data, hm, get_value_height_unit_div, hv, hh, hu, hvi, hdi, hui]

/-- Witness for C7 at concrete cells. -/
theorem get_data_triple_cases_witness :
    get_data defaultTd = [] ∧
    get_data tdLowA = [(some 360, 1, "ft")] ∧
    get_data ⟨[], "", [divLowA, divLowB]⟩ = [(some 360, 1, "ft"), (some 1065, 2, "ft")] ∧
    get_data ⟨[], "", [divLowA, divNoHeight]⟩ = [(some 360, 1, "ft")] := by
  have h := get_data_triple_cases defaultTd tdLowA ⟨[], "", [divLowA, divLowB]⟩
    ⟨[], "", [divLowA, divNoHeight]⟩ divLowA divLowB divNoHeight
    "06:00AM".data "05:45PM".data 1 2 "ft" "ft"
    rfl rfl rfl rfl rfl rfl rfl rfl rfl rfl rfl
  refine ⟨h.1, h.2.1.trans (by rfl), h.2.2.1.trans (by rfl), h.2.2.2.trans (by rfl)⟩

/-- C10: get_data returns at most two readings, and a cell whose nested div
count is neither 1 nor 2 yields no readings at all. -/
theorem get_data_at_most_two (td : Td) :
    (get_data td).length ≤ 2 ∧
    (td.divs.length ≠ 1 ∧ td.divs.length ≠ 2 → get_data td = []) := by
  constructor
  · by_cases h1 : td.divs.length = 1
    · unfold get_data
      rw [if_pos h1]
      split <;> simp
    · by_cases h2 : td.divs.length = 2
      · obtain ⟨x, y, hxy⟩ := List.length_eq_two.mp h2
        unfold get_data
        rw [if_neg h1, if_pos h2, hxy]
        simp only [List.foldl_cons, List.foldl_nil]
        split <;> split <;> simp
      · simp [get_data, h1, h2]
  · intro h
    simp [get_data, h.1, h.2]

/-- Witness for C10 at a concrete three-div cell. -/
theorem get_data_at_most_two_witness :
    (get_data tdThree).length ≤ 2 ∧ get_data tdThree = [] :=
  ⟨(get_data_at_most_two tdThree).1,
   (get_data_at_most_two tdThree).2 (by decide)⟩

/-! Lemmas about the daylight filter. -/

lemma mapExtend_fresh {m : TidesMap} {k : PDate} (v : List Reading)
    (h : k ∉ m.map Prod.fst) : mapExtend m k v = m ++ [(k, v)] := by
  unfold mapExtend
  rw [if_neg h]

lemma mapExtend_snoc (acc : TidesMap) (dt : PDate) (p v : List Reading)
    (h : dt ∉ acc.map Prod.fst) :
    mapExtend (acc ++ [(dt, p)]) dt v = acc ++ [(dt, p ++ v)] := by
  unfold mapExtend
  rw [if_pos (by simp), List.map_append]
  congr 1
  · calc acc.map (fun q => if q.1 = dt then (q.1, q.2 ++ v) else q)
        = acc.map id := List.map_congr_left (fun x hx => by
          have hne : x.1 ≠ dt := fun he => h (List.mem_map.mpr ⟨x, hx, he⟩)
          simp [hne])
      _ = acc := List.map_id acc
  · simp

lemma windowTest_entry {rs : List SunEntry} {indx w₁ w₂ : Nat} {t : Nat}
    (h : rs[indx]? = some [some w₁, some w₂]) :
    windowTest (some rs) indx (some t) =
      .ok (decide (w₁ ≤ t) && decide (t ≤ w₂)) := by
  cases hd : decide (w₁ ≤ t) <;> simp [windowTest, h, pyLE, hd]

lemma filterDay_snoc {rs : List SunEntry} {indx w₁ w₂ : Nat}
    (h : rs[indx]? = some [some w₁, some w₂]) (dt : PDate)
    (data : List RawReading) :
    ∀ (acc : TidesMap) (p : List Reading), dt ∉ acc.map Prod.fst →
      filterDay (some rs) indx dt (data.map wrapReading) (acc ++ [(dt, p)]) =
        .ok (acc ++ [(dt, p ++ (data.filter (keepR (w₁, w₂))).map wrapReading)]) := by
  induction data with
  | nil => intro acc p _; simp [filterDay]
  | cons r rest ih =>
    intro acc p hf
    rcases r with ⟨t, q, u⟩
    simp only [List.map_cons, wrapReading, filterDay]
    rw [windowTest_entry h]
    cases hb : (decide (w₁ ≤ t) && decide (t ≤ w₂)) with
    | false =>
      have hk : keepR (w₁, w₂) (t, q, u) = false := by simpa [keepR] using hb
      have hfc : List.filter (keepR (w₁, w₂)) ((t, q, u) :: rest)
          = List.filter (keepR (w₁, w₂)) rest := by
        simp [List.filter_cons, hk]
      show filterDay (some rs) indx dt (List.map wrapReading rest) (acc ++ [(dt, p)]) = _
      rw [ih acc p hf, hfc]
    | true =>
      have hk : keepR (w₁, w₂) (t, q, u) = true := by simpa [keepR] using hb
      have hfc : List.filter (keepR (w₁, w₂)) ((t, q, u) :: rest)
          = (t, q, u) :: List.filter (keepR (w₁, w₂)) rest := by
        simp [List.filter_cons, hk]
      show filterDay (some rs) indx dt (List.map wrapReading rest)
        (mapExtend (acc ++ [(dt, p)]) dt [(some t, q, u)]) = _
      rw [mapExtend_snoc acc dt p [(some t, q, u)] hf,
        ih acc (p ++ [(some t, q, u)]) hf, hfc]
      simp [wrapReading]

lemma filterDay_fresh {rs : List SunEntry} {indx w₁ w₂ : Nat}
    (h : rs[indx]? = some [some w₁, some w₂]) (dt : PDate)
    (data : List RawReading) :
    ∀ acc : TidesMap, dt ∉ acc.map Prod.fst →
      filterDay (some rs) indx dt (data.map wrapReading) acc =
        .ok (acc ++ (if data.filter (keepR (w₁, w₂)) = [] then []
                     else [(dt, (data.filter (keepR (w₁, w₂))).map wrapReading)])) := by
  induction data with
  | nil => intro acc _; simp [filterDay]
  | cons r rest ih =>
    intro acc hf
    rcases r with ⟨t, q, u⟩
    simp only [List.map_cons, wrapReading, filterDay]
    rw [windowTest_entry h]
    cases hb : (decide (w₁ ≤ t) && decide (t ≤ w₂)) with
    | false =>
      have hk : keepR (w₁, w₂) (t, q, u) = false := by simpa [keepR] using hb
      have hfc : List.filter (keepR (w₁, w₂)) ((t, q, u) :: rest)
          = List.filter (keepR (w₁, w₂)) rest := by
        simp [List.filter_cons, hk]
      show filterDay (some rs) indx dt (List.map wrapReading rest) acc = _
      rw [ih acc hf, hfc]
    | true =>
      have hk : keepR (w₁, w₂) (t, q, u) = true := by simpa [keepR] using hb
      have hfc : List.filter (keepR (w₁, w₂)) ((t, q, u) :: rest)
          = (t, q, u) :: List.filter (keepR (w₁, w₂)) rest := by
        simp [List.filter_cons, hk]
      show filterDay (some rs) indx dt (List.map wrapReading rest)
        (mapExtend acc dt [(some t, q, u)]) = _
      rw [mapExtend_fresh [(some t, q, u)] hf,
        filterDay_snoc h dt rest acc [(some t, q, u)] hf, hfc]
      simp [wrapReading]

lemma filter_tides_loop_cons_ok {rs : Option (List SunEntry)} {dt : PDate}
    {data : List Reading} {acc f : TidesMap} {rest : List (PDate × List Reading)}
    {indx : Nat} (h : filterDay rs indx dt data acc = .ok f) :
    filter_tides_loop rs ((dt, data) :: rest) indx acc =
      filter_tides_loop rs rest (indx + 1) f := by
  simp [filter_tides_loop, h]

lemma filter_tides_loop_cons_err {rs : Option (List SunEntry)} {dt : PDate}
    {data : List Reading} {acc : TidesMap} {rest : List (PDate × List Reading)}
    {indx : Nat} {e : PyErr} (h : filterDay rs indx dt data acc = .error e) :
    filter_tides_loop rs ((dt, data) :: rest) indx acc = .error e := by
  simp [filter_tides_loop, h]

lemma filter_tides_loop_append {rs : Option (List SunEntry)} :
    ∀ (l₁ l₂ : List (PDate × List Reading)) (indx : Nat) (acc acc' : TidesMap),
      filter_tides_loop rs l₁ indx acc = .ok acc' →
      filter_tides_loop rs (l₁ ++ l₂) indx acc =
        filter_tides_loop rs l₂ (indx + l₁.length) acc' := by
  intro l₁
  induction l₁ with
  | nil =>
    intro l₂ indx acc acc' h
    simp only [filter_tides_loop] at h
    cases h
    simp
  | cons p rest ih =>
    intro l₂ indx acc acc' h
    rcases p with ⟨dt, data⟩
    cases hd : filterDay rs indx dt data acc with
    | error e =>
      rw [filter_tides_loop_cons_err hd] at h
      simp at h
    | ok f =>
      rw [filter_tides_loop_cons_ok hd] at h
      rw [List.cons_append, filter_tides_loop_cons_ok hd]
      simp only [List.length_cons]
      rw [show indx + (rest.length + 1) = indx + 1 + rest.length by omega]
      exact ih l₂ (indx + 1) f acc' h

lemma filter_aligned :
    ∀ (days : List (PDate × List RawReading)) (windows wpre : List (Nat × Nat))
      (acc : TidesMap),
      days.length = windows.length →
      (days.map Prod.fst).Nodup →
      (∀ k ∈ days.map Prod.fst, k ∉ acc.map Prod.fst) →
      filter_tides_loop (some ((wpre ++ windows).map mkWindowEntry)) (days.map wrapDay)
        wpre.length acc = .ok (acc ++ alignedExpected (days.zip windows)) := by
  intro days
  induction days with
  | nil =>
    intro windows wpre acc _ _ _
    simp [filter_tides_loop, alignedExpected]
  | cons p ds ih =>
    intro windows wpre acc hlen hnd hfresh
    rcases windows with _ | ⟨w, ws⟩
    · simp at hlen
    rcases p with ⟨dt, data⟩
    rcases w with ⟨w₁, w₂⟩
    have hentry : ((wpre ++ (w₁, w₂) :: ws).map mkWindowEntry)[wpre.length]?
        = some [some w₁, some w₂] := by
      rw [List.getElem?_map, List.getElem?_append_right (le_refl wpre.length)]
      simp [mkWindowEntry]
    have hdt : dt ∉ acc.map Prod.fst := hfresh dt (by simp)
    have hstep := filterDay_fresh hentry dt data acc hdt
    rw [List.map_cons, show wrapDay (dt, data) = (dt, data.map wrapReading) from rfl,
      filter_tides_loop_cons_ok hstep]
    have hnd' : (dt :: ds.map Prod.fst).Nodup := by
      simpa only [List.map_cons] using hnd
    have hnd2 := List.nodup_cons.mp hnd'
    set X := (if data.filter (keepR (w₁, w₂)) = [] then []
              else [(dt, (data.filter (keepR (w₁, w₂))).map wrapReading)]) with hX
    have hfresh2 : ∀ k ∈ ds.map Prod.fst, k ∉ (acc ++ X).map Prod.fst := by
      intro k hk
      simp only [List.map_append, List.mem_append]
      rintro (hka | hkx)
      · exact hfresh k (by simp [hk]) hka
      · have hkdt : k = dt := by
          by_cases hkept : data.filter (keepR (w₁, w₂)) = []
          · rw [hX, if_pos hkept] at hkx
            simp at hkx
          · rw [hX, if_neg hkept] at hkx
            simpa using hkx
        exact hnd2.1 (hkdt ▸ hk)
    rw [show wpre ++ (w₁, w₂) :: ws = (wpre ++ [(w₁, w₂)]) ++ ws by simp,
      show wpre.length + 1 = (wpre ++ [(w₁, w₂)]).length by simp,
      ih ws (wpre ++ [(w₁, w₂)]) (acc ++ X) (by simpa using hlen) hnd2.2 hfresh2]
    by_cases hkept : data.filter (keepR (w₁, w₂)) = []
    · simp [hX, hkept, alignedExpected, List.zip_cons_cons, List.filterMap_cons]
    · simp [hX, hkept, alignedExpected, List.zip_cons_cons, List.filterMap_cons,
        List.append_assoc]

/-- C3: for every day aligned with a proper SunWindow, the daylight filter
keeps exactly the readings whose time t satisfies sunrise ≤ t ≤ sunset
(both endpoints included, so a reading just outside either endpoint is
dropped), preserving per-day reading order; days keeping nothing get no
entry. -/
theorem filter_retains_daylight_window (days : List (PDate × List RawReading))
    (windows : List (Nat × Nat))
    (hlen : days.length = windows.length)
    (hnd : (days.map Prod.fst).Nodup) :
    filter_tides_loop (some (windows.map mkWindowEntry)) (days.map wrapDay) 0 [] =
      .ok (alignedExpected (days.zip windows)) := by
  have h := filter_aligned days windows [] [] hlen hnd (by simp)
  simpa using h

/-- Witness for C3: sunrise 06:00 (360) and sunset 17:30 (1050); readings
exactly at sunrise and sunset are kept, one minute outside is dropped. -/
theorem filter_retains_daylight_window_witness :
    filter_tides_loop (some [mkWindowEntry (360, 1050)])
      ([(dateA, [(360, 1, "ft"), (359, 2, "ft"), (1050, 3, "ft"), (1051, 4, "ft")])].map
        wrapDay) 0 [] =
      .ok [(dateA, [(some 360, 1, "ft"), (some 1050, 3, "ft")])] := by
  have h := filter_retains_daylight_window
    [(dateA, [(360, 1, "ft"), (359, 2, "ft"), (1050, 3, "ft"), (1051, 4, "ft")])]
    [(360, 1050)] (by decide) (by simp)
  exact h.trans (by rfl)

lemma filterDay_ok {rs : List SunEntry} {indx w₁ w₂ : Nat}
    (h : rs[indx]? = some [some w₁, some w₂]) (dt : PDate)
    (data : List RawReading) :
    ∀ acc : TidesMap,
      ∃ acc', filterDay (some rs) indx dt (data.map wrapReading) acc = .ok acc' := by
  induction data with
  | nil => intro acc; exact ⟨acc, by simp [filterDay]⟩
  | cons r rest ih =>
    intro acc
    rcases r with ⟨t, q, u⟩
    simp only [List.map_cons, wrapReading, filterDay]
    rw [windowTest_entry h]
    cases hb : (decide (w₁ ≤ t) && decide (t ≤ w₂)) with
    | false => exact ih acc
    | true => exact ih (mapExtend acc dt [(some t, q, u)])

lemma filter_ok :
    ∀ (days : List (PDate × List RawReading)) (windows wpre : List (Nat × Nat))
      (acc : TidesMap),
      days.length = windows.length →
      ∃ acc', filter_tides_loop (some ((wpre ++ windows).map mkWindowEntry))
        (days.map wrapDay) wpre.length acc = .ok acc' := by
  intro days
  induction days with
  | nil => intro windows wpre acc _; exact ⟨acc, by simp [filter_tides_loop]⟩
  | cons p ds ih =>
    intro windows wpre acc hlen
    rcases windows with _ | ⟨w, ws⟩
    · simp at hlen
    rcases p with ⟨dt, data⟩
    rcases w with ⟨w₁, w₂⟩
    have hentry : ((wpre ++ (w₁, w₂) :: ws).map mkWindowEntry)[wpre.length]?
        = some [some w₁, some w₂] := by
      rw [List.getElem?_map, List.getElem?_append_right (le_refl wpre.length)]
      simp [mkWindowEntry]
    obtain ⟨f, hf⟩ := filterDay_ok hentry dt data acc
    rw [List.map_cons, show wrapDay (dt, data) = (dt, data.map wrapReading) from rfl,
      filter_tides_loop_cons_ok hf,
      show wpre ++ (w₁, w₂) :: ws = (wpre ++ [(w₁, w₂)]) ++ ws by simp,
      show wpre.length + 1 = (wpre ++ [(w₁, w₂)]).length by simp]
    exact ih ws (wpre ++ [(w₁, w₂)]) f (by simpa using hlen)

/-- C6 (amended): there is no AlignmentError check; when a reading is
processed for a day whose index has no SunWindow entry (the tide mapping is
longer than the window sequence and the first excess day has tide data),
the filter raises IndexError. -/
theorem filter_missing_window_raises (days : List (PDate × List RawReading))
    (windows : List (Nat × Nat)) (dt : PDate) (t : Option Nat) (q : ℚ) (u : String)
    (restR : List Reading) (restD : List (PDate × List Reading))
    (hlen : days.length = windows.length) :
    filter_tides_loop (some (windows.map mkWindowEntry))
      (days.map wrapDay ++ (dt, (t, q, u) :: restR) :: restD) 0 [] =
      .error .indexError := by
  obtain ⟨acc', hacc⟩ := filter_ok days windows [] [] hlen
  have hacc' : filter_tides_loop (some (windows.map mkWindowEntry))
      (days.map wrapDay) 0 [] = .ok acc' := by simpa using hacc
  rw [filter_tides_loop_append (days.map wrapDay) _ 0 [] acc' hacc']
  have hnone : windows[days.length]? = none :=
    List.getElem?_eq_none (le_of_eq hlen.symm)
  have hfd : filterDay (some (windows.map mkWindowEntry))
      (0 + (days.map wrapDay).length) dt ((t, q, u) :: restR) acc' =
      .error .indexError := by
    simp [filterDay, windowTest, hnone]
  rw [filter_tides_loop_cons_err hfd]

/-- Witness for C6's amended claim at a concrete misaligned input. -/
theorem filter_missing_window_raises_witness :
    filter_tides_loop (some [mkWindowEntry (360, 1050)])
      ([(dateA, [(400, 1, "ft")])].map wrapDay ++ [(dateB, [(none, 2, "ft")])])
      0 [] = .error .indexError :=
  filter_missing_window_raises [(dateA, [(400, 1, "ft")])] [(360, 1050)]
    dateB none 2 "ft" [] [] (by decide)

/-- C6 counterexample: the reference code has no AlignmentError at all; the
sun-window sequence and the tide mapping here have different lengths, yet
the filter succeeds silently instead of failing. -/
theorem filter_length_mismatch_silent :
    filter_tides_loop (some []) [(dateA, [])] 0 [] = .ok [] ∧
    ([] : List SunEntry).length ≠ [(dateA, ([] : List Reading))].length :=
  ⟨rfl, by decide⟩

/-! Lemmas about the tide-row extractor. -/

lemma cellsNeeded_cons (dt : PDate) (cols : Nat) (rest : List (PDate × Nat)) :
    cellsNeeded ((dt, cols) :: rest) = chunkSize cols + cellsNeeded rest := by
  simp [cellsNeeded]

lemma chunkSize_pos (cols : Nat) : 1 ≤ chunkSize cols := by
  unfold chunkSize
  split <;> omega

lemma rowLoop_exhausted {tds : List Td} {ti : Nat} {m : TidesMap}
    (h : tds.length ≤ ti) (days : List (PDate × Nat)) :
    rowLoop tds days ti m = .ok m := by
  cases days with
  | nil => simp [rowLoop, h]
  | cons p rest =>
    rcases p with ⟨dt, cols⟩
    simp [rowLoop, h]

lemma colsLoop_ok (tds : List Td) (dt : PDate) :
    ∀ (n ti : Nat) (m : TidesMap), ti + n ≤ tds.length →
      colsLoop tds dt n ti m =
        .ok (ti + n, foldCells dt ((tds.drop ti).take n) m) := by
  intro n
  induction n with
  | zero => intro ti m _; simp [colsLoop, foldCells]
  | succ k ih =>
    intro ti m h
    have hti : ti < tds.length := by omega
    have hd : tds.drop ti = tds[ti] :: tds.drop (ti + 1) := List.drop_eq_getElem_cons hti
    have hstep : colsLoop tds dt (k + 1) ti m =
        colsLoop tds dt k (ti + 1)
          (if get_data tds[ti] = [] then m else mapExtend m dt (get_data tds[ti])) := by
      simp [colsLoop, List.getElem?_eq_getElem hti]
    rw [hstep, ih (ti + 1) _ (by omega), hd, List.take_succ_cons,
      show ti + (k + 1) = ti + 1 + k by omega]
    simp [foldCells]

lemma rowLoop_step_zero {tds : List Td} {ti : Nat} {m : TidesMap}
    (hti : ti < tds.length) (dt : PDate) (rest : List (PDate × Nat)) :
    rowLoop tds ((dt, 0) :: rest) ti m =
      rowLoop tds rest (ti + 1) (mapAssign m dt (get_data tds[ti])) := by
  simp [rowLoop, List.getElem?_eq_getElem hti, not_le.mpr hti]

lemma rowLoop_step_pos {tds : List Td} {ti cols : Nat} {m : TidesMap}
    (hti : ti < tds.length) (hc : cols ≠ 0) (hcl : ti + cols ≤ tds.length)
    (dt : PDate) (rest : List (PDate × Nat)) :
    rowLoop tds ((dt, cols) :: rest) ti m =
      rowLoop tds rest (ti + cols) (foldCells dt ((tds.drop ti).take cols) m) := by
  simp only [rowLoop]
  rw [if_neg (not_le.mpr hti), if_neg hc, colsLoop_ok tds dt cols ti m hcl]

lemma rowLoop_spec (tds : List Td) :
    ∀ (dates extra : List (PDate × Nat)) (ti : Nat) (m : TidesMap),
      ti + cellsNeeded dates = tds.length →
      rowLoop tds (dates ++ extra) ti m = .ok (rowSpec dates (tds.drop ti) m) := by
  intro dates
  induction dates with
  | nil =>
    intro extra ti m h
    simp only [cellsNeeded, List.map_nil, List.sum_nil, Nat.add_zero] at h
    rw [List.nil_append, rowLoop_exhausted (le_of_eq h.symm), rowSpec]
  | cons p rest ih =>
    intro extra ti m h
    rcases p with ⟨dt, cols⟩
    rw [cellsNeeded_cons] at h
    have hchunk := chunkSize_pos cols
    have hti : ti < tds.length := by omega
    have hd : tds.drop ti = tds[ti] :: tds.drop (ti + 1) := List.drop_eq_getElem_cons hti
    by_cases hc : cols = 0
    · subst hc
      have hneed : ti + 1 + cellsNeeded rest = tds.length := by
        rw [show chunkSize 0 = 1 from rfl] at h
        omega
      rw [List.cons_append, rowLoop_step_zero hti, ih extra (ti + 1) _ hneed,
        rowSpec, if_pos rfl, hd]
      simp only [List.drop_succ_cons, List.drop_zero, List.headD_cons]
    · have hcols : chunkSize cols = cols := by simp [chunkSize, hc]
      have hneed : ti + cols + cellsNeeded rest = tds.length := by omega
      have hcl : ti + cols ≤ tds.length := by omega
      rw [List.cons_append, rowLoop_step_pos hti hc hcl, ih extra (ti + cols) _ hneed]
      have hdr : tds.drop (ti + cols) = (tds.drop ti).drop cols := by
        rw [List.drop_drop, Nat.add_comm]
      rw [rowSpec, if_neg hc, hdr]

lemma rowLoop_overflow (tds : List Td) :
    ∀ (dates : List (PDate × Nat)) (ti : Nat) (m : TidesMap),
      ti + cellsNeeded dates < tds.length →
      rowLoop tds dates ti m = .error .indexError := by
  intro dates
  induction dates with
  | nil =>
    intro ti m h
    simp only [cellsNeeded, List.map_nil, List.sum_nil, Nat.add_zero] at h
    simp [rowLoop, not_le.mpr h]
  | cons p rest ih =>
    intro ti m h
    rcases p with ⟨dt, cols⟩
    rw [cellsNeeded_cons] at h
    have hchunk := chunkSize_pos cols
    have hti : ti < tds.length := by omega
    by_cases hc : cols = 0
    · subst hc
      have hneed : ti + 1 + cellsNeeded rest < tds.length := by
        rw [show chunkSize 0 = 1 from rfl] at h
        omega
      rw [rowLoop_step_zero hti]
      exact ih (ti + 1) _ hneed
    · have hcols : chunkSize cols = cols := by simp [chunkSize, hc]
      have hneed : ti + cols + cellsNeeded rest < tds.length := by omega
      rw [rowLoop_step_pos hti hc (by omega)]
      exact ih (ti + cols) _ hneed

lemma get_tidesGo_skip (dates : List (PDate × Nat)) :
    ∀ (pre rest : List Tr) (m : TidesMap),
      (∀ tr ∈ pre, has_tide_info tr "low" = false) →
      get_tidesGo dates (pre ++ rest) m = get_tidesGo dates rest m := by
  intro pre
  induction pre with
  | nil => intro rest m _; rw [List.nil_append]
  | cons r rs ih =>
    intro rest m h
    have hr : has_tide_info r "low" = false := h r (List.mem_cons_self r rs)
    rw [List.cons_append]
    have hstep : get_tidesGo dates (r :: (rs ++ rest)) m =
        get_tidesGo dates (rs ++ rest) m := by
      simp [get_tidesGo, hr]
    rw [hstep]
    exact ih rest m (fun tr htr => h tr (List.mem_cons_of_mem r htr))

lemma get_tidesGo_qual (dates : List (PDate × Nat)) (r : Tr) (rest : List Tr)
    (m : TidesMap) (h : has_tide_info r "low" = true) :
    get_tidesGo dates (r :: rest) m = (rowLoop r.tds dates 0 m).map some := by
  cases hr : rowLoop r.tds dates 0 m <;> simp [get_tidesGo, h, hr, Except.map]

/-- C1 (amended): get_tides skips separator rows without a low-tide cell,
but the while loop of the first qualifying row can only exit by returning
the whole dict (or raising), so only that first qualifying row is ever
processed and later qualifying rows are ignored.  Within that row, when its
cells exactly cover a prefix of the day columns, a day of column count 0
consumes one cell (its readings assigned) and a day of count N > 0 consumes
N consecutive cells with nonempty extractions concatenated in cell order,
as described by rowSpec. -/
theorem get_tides_first_qualifying_row (table : Table)
    (dates dates₁ dates₂ : List (PDate × Nat)) (pre post : List Tr) (r : Tr)
    (hsep : sepRows table = pre ++ r :: post)
    (hpre : ∀ tr ∈ pre, has_tide_info tr "low" = false)
    (hq : has_tide_info r "low" = true)
    (hdates : dates = dates₁ ++ dates₂)
    (hfit : cellsNeeded dates₁ = r.tds.length) :
    get_tides table dates = .ok (some (rowSpec dates₁ r.tds [])) := by
  unfold get_tides
  rw [hsep, get_tidesGo_skip dates pre (r :: post) [] hpre,
    get_tidesGo_qual dates r post [] hq, hdates,
    rowLoop_spec r.tds dates₁ dates₂ 0 [] (by simpa using hfit)]
  simp [Except.map]

/-- Witness for C1's amended claim on a two-row table. -/
theorem get_tides_first_qualifying_row_witness :
    get_tides ⟨[sepRowA, sepRowB], []⟩ [(dateA, 0)] =
      .ok (some [(dateA, [(some 360, 1, "ft")])]) := by
  have h := get_tides_first_qualifying_row ⟨[sepRowA, sepRowB], []⟩
    [(dateA, 0)] [(dateA, 0)] [] [] [sepRowB] sepRowA
    (by rfl) (by simp) (by rfl) (by simp) (by rfl)
  exact h.trans (by rfl)

/-- C1 counterexample: with two qualifying separator rows, adding or
removing the second row does not change the result (it is never processed),
although processing the second row alone would give different data. -/
theorem get_tides_second_row_ignored :
    get_tides ⟨[sepRowA, sepRowB], []⟩ [(dateA, 0)] =
      get_tides ⟨[sepRowA], []⟩ [(dateA, 0)] ∧
    get_tides ⟨[sepRowB], []⟩ [(dateA, 0)] ≠
      get_tides ⟨[sepRowA], []⟩ [(dateA, 0)] :=
  ⟨rfl, by decide⟩

/-- C2 (amended): for the first qualifying row, when the day-column
sequence is exhausted while cells remain (the row has more cells than the
sequence accounts for), get_tides raises IndexError rather than returning;
the intentional early return fires in the opposite situation: when the
row's cells are exhausted at a day boundary, the dict accumulated so far is
returned immediately (for the whole extraction). -/
theorem get_tides_overflow_and_early_return (table : Table)
    (dates : List (PDate × Nat)) (pre post : List Tr) (r : Tr)
    (hsep : sepRows table = pre ++ r :: post)
    (hpre : ∀ tr ∈ pre, has_tide_info tr "low" = false)
    (hq : has_tide_info r "low" = true) :
    (cellsNeeded dates < r.tds.length → get_tides table dates = .error .indexError) ∧
    (∀ dates₁ dates₂, dates = dates₁ ++ dates₂ → cellsNeeded dates₁ = r.tds.length →
      get_tides table dates = .ok (some (rowSpec dates₁ r.tds []))) := by
  constructor
  · intro hover
    unfold get_tides
    rw [hsep, get_tidesGo_skip dates pre (r :: post) [] hpre,
      get_tidesGo_qual dates r post [] hq,
      rowLoop_overflow r.tds dates 0 [] (by simpa using hover)]
    rfl
  · intro dates₁ dates₂ hdates hfit
    unfold get_tides
    rw [hsep, get_tidesGo_skip dates pre (r :: post) [] hpre,
      get_tidesGo_qual dates r post [] hq, hdates,
      rowLoop_spec r.tds dates₁ dates₂ 0 [] (by simpa using hfit)]
    simp [Except.map]

/-- Witness for C2's amended claim: a three-cell row with a one-cell day
sequence raises IndexError; a two-cell row whose single day spans two
columns returns at the boundary. -/
theorem get_tides_overflow_and_early_return_witness :
    get_tides ⟨[sepRow3], []⟩ [(dateA, 0)] = .error .indexError ∧
    get_tides ⟨[sepRowAB], []⟩ [(dateA, 2)] =
      .ok (some (rowSpec [(dateA, 2)] sepRowAB.tds [])) := by
  constructor
  · exact (get_tides_overflow_and_early_return ⟨[sepRow3], []⟩ [(dateA, 0)]
      [] [] sepRow3 (by rfl) (by simp) (by rfl)).1 (by decide)
  · exact (get_tides_overflow_and_early_return ⟨[sepRowAB], []⟩ [(dateA, 2)]
      [] [] sepRowAB (by rfl) (by simp) (by rfl)).2 [(dateA, 2)] [] (by simp) (by rfl)

/-- C2 counterexample: a qualifying row with more cells than the day-column
sequence accounts for makes get_tides raise IndexError instead of returning
the accumulated result without error. -/
theorem get_tides_overflow_raises :
    get_tides ⟨[sepRowAB], []⟩ [(dateA, 0)] = .error .indexError ∧
    cellsNeeded [(dateA, 0)] < sepRowAB.tds.length :=
  ⟨rfl, by decide⟩

lemma mapAssign_keys {m : TidesMap} {k : PDate} {v : List Reading} :
    ∀ k' ∈ (mapAssign m k v).map Prod.fst, k' ∈ m.map Prod.fst ∨ k' = k := by
  intro k' hk'
  unfold mapAssign at hk'
  split at hk'
  · rcases List.mem_map.mp hk' with ⟨p, hp, hpe⟩
    rcases List.mem_map.mp hp with ⟨q, hq, hqe⟩
    by_cases hqk : q.1 = k
    · right
      rw [← hpe, ← hqe]
      simp [hqk]
    · left
      rw [← hpe, ← hqe]
      simp only [hqk, if_false]
      exact List.mem_map.mpr ⟨q, hq, rfl⟩
  · rw [List.map_append] at hk'
    rcases List.mem_append.mp hk' with h | h
    · left; exact h
    · right; simpa using h

lemma mapExtend_keys {m : TidesMap} {k : PDate} {v : List Reading} :
    ∀ k' ∈ (mapExtend m k v).map Prod.fst, k' ∈ m.map Prod.fst ∨ k' = k := by
  intro k' hk'
  unfold mapExtend at hk'
  split at hk'
  · rcases List.mem_map.mp hk' with ⟨p, hp, hpe⟩
    rcases List.mem_map.mp hp with ⟨q, hq, hqe⟩
    left
    rw [← hpe, ← hqe]
    by_cases hqk : q.1 = k
    · simp only [hqk, if_true, if_pos hqk]
      exact hqk ▸ List.mem_map.mpr ⟨q, hq, rfl⟩
    · simp only [hqk, if_false, if_neg hqk]
      exact List.mem_map.mpr ⟨q, hq, rfl⟩
  · rw [List.map_append] at hk'
    rcases List.mem_append.mp hk' with h | h
    · left; exact h
    · right; simpa using h

lemma colsLoop_keys (tds : List Td) (dt : PDate) :
    ∀ (n ti : Nat) (m : TidesMap) (ti' : Nat) (m' : TidesMap),
      colsLoop tds dt n ti m = .ok (ti', m') →
      ∀ k' ∈ m'.map Prod.fst, k' ∈ m.map Prod.fst ∨ k' = dt := by
  intro n
  induction n with
  | zero =>
    intro ti m ti' m' h k' hk'
    simp only [colsLoop] at h
    cases h
    left
    exact hk'
  | succ j ih =>
    intro ti m ti' m' h k' hk'
    cases htd : tds[ti]? with
    | none => simp [colsLoop, htd] at h
    | some td =>
      have h2 : colsLoop tds dt j (ti + 1)
          (if get_data td = [] then m else mapExtend m dt (get_data td)) =
          .ok (ti', m') := by
        simpa [colsLoop, htd] using h
      rcases ih (ti + 1) _ ti' m' h2 k' hk' with hin | hdt
      · by_cases hd : get_data td = []
        · rw [if_pos hd] at hin
          left; exact hin
        · rw [if_neg hd] at hin
          exact mapExtend_keys k' hin
      · right; exact hdt

lemma rowLoop_keys (tds : List Td) :
    ∀ (days : List (PDate × Nat)) (ti : Nat) (m m' : TidesMap),
      rowLoop tds days ti m = .ok m' →
      ∀ k' ∈ m'.map Prod.fst, k' ∈ m.map Prod.fst ∨ k' ∈ days.map Prod.fst := by
  intro days
  induction days with
  | nil =>
    intro ti m m' h k' hk'
    by_cases hle : tds.length ≤ ti
    · simp only [rowLoop, if_pos hle] at h
      cases h
      left; exact hk'
    · simp [rowLoop, hle] at h
  | cons p rest ih =>
    intro ti m m' h k' hk'
    rcases p with ⟨dt, cols⟩
    by_cases hle : tds.length ≤ ti
    · rw [rowLoop_exhausted hle] at h
      cases h
      left; exact hk'
    · have hti : ti < tds.length := Nat.lt_of_not_le hle
      by_cases hc : cols = 0
      · subst hc
        rw [rowLoop_step_zero hti] at h
        rcases ih (ti + 1) _ m' h k' hk' with hin | hrest
        · rcases mapAssign_keys k' hin with hm | hdt
          · left; exact hm
          · right; simp [hdt]
        · right
          simp only [List.map_cons, List.mem_cons]
          right; exact hrest
      · cases hcl : colsLoop tds dt cols ti m with
        | error e =>
          have hstep : rowLoop tds ((dt, cols) :: rest) ti m = .error e := by
            simp only [rowLoop]
            rw [if_neg hle, if_neg hc, hcl]
          rw [hstep] at h
          simp at h
        | ok pr =>
          rcases pr with ⟨ti2, m2⟩
          have hstep : rowLoop tds ((dt, cols) :: rest) ti m =
              rowLoop tds rest ti2 m2 := by
            simp only [rowLoop]
            rw [if_neg hle, if_neg hc, hcl]
          rw [hstep] at h
          rcases ih ti2 m2 m' h k' hk' with hin | hrest
          · rcases colsLoop_keys tds dt cols ti m ti2 m2 hcl k' hin with hm | hdt
            · left; exact hm
            · right; simp [hdt]
          · right
            simp only [List.map_cons, List.mem_cons]
            right; exact hrest

lemma get_tidesGo_keys (dates : List (PDate × Nat)) :
    ∀ (rows : List Tr) (m m' : TidesMap),
      get_tidesGo dates rows m = .ok (some m') →
      ∀ k' ∈ m'.map Prod.fst, k' ∈ m.map Prod.fst ∨ k' ∈ dates.map Prod.fst := by
  intro rows
  induction rows with
  | nil =>
    intro m m' h
    simp [get_tidesGo] at h
  | cons r rest ih =>
    intro m m' h k' hk'
    by_cases hq : has_tide_info r "low" = true
    · rw [get_tidesGo_qual dates r rest m hq] at h
      cases hr : rowLoop r.tds dates 0 m with
      | error e =>
        rw [hr] at h
        simp [Except.map] at h
      | ok m2 =>
        rw [hr] at h
        have hm2 : m2 = m' := by simpa [Except.map] using h
        subst hm2
        exact rowLoop_keys r.tds dates 0 m m2 hr k' hk'
    · have hq' : has_tide_info r "low" = false := by
        simpa using hq
      have hstep : get_tidesGo dates (r :: rest) m = get_tidesGo dates rest m := by
        simp [get_tidesGo, hq']
      rw [hstep] at h
      exact ih m m' h k' hk'

/-- C5 (amended): every key of the mapping returned by get_tides comes from
the Day-Column Resolver's output; the spec's forward inclusion fails (see
the counterexample), since a resolver date past the early-return point, or
one whose positive-span cells all yield no readings, gets no key. -/
theorem get_tides_keys_from_dates (table : Table) (m : TidesMap) (k : PDate)
    (v : List Reading)
    (hm : get_tides table (get_dates_from_table table) = .ok (some m))
    (hkv : (k, v) ∈ m) :
    k ∈ (get_dates_from_table table).map Prod.fst := by
  have hk : k ∈ m.map Prod.fst := List.mem_map.mpr ⟨(k, v), hkv, rfl⟩
  rcases get_tidesGo_keys (get_dates_from_table table) (sepRows table) [] m hm k hk
    with h0 | hd
  · simp at h0
  · exact hd

/-- Witness for C5's amended claim at a concrete table. -/
theorem get_tides_keys_from_dates_witness :
    dateA ∈ (get_dates_from_table ⟨[sepRowA], [⟨dateA, 0⟩, ⟨dateB, 0⟩]⟩).map Prod.fst :=
  get_tides_keys_from_dates ⟨[sepRowA], [⟨dateA, 0⟩, ⟨dateB, 0⟩]⟩
    [(dateA, [(some 360, 1, "ft")])] dateA [(some 360, 1, "ft")]
    (by rfl) (by decide)

/-- C5 counterexample: dateB is present in the Day-Column Resolver's output
but absent from the keys of the mapping get_tides returns (the early return
fires before the second day is reached). -/
theorem get_tides_missing_date_key :
    dateB ∈ (get_dates_from_table ⟨[sepRowA], [⟨dateA, 0⟩, ⟨dateB, 0⟩]⟩).map Prod.fst ∧
    get_tides ⟨[sepRowA], [⟨dateA, 0⟩, ⟨dateB, 0⟩]⟩
      (get_dates_from_table ⟨[sepRowA], [⟨dateA, 0⟩, ⟨dateB, 0⟩]⟩) =
      .ok (some [(dateA, [(some 360, 1, "ft")])]) ∧
    dateB ∉ ([(dateA, [((some 360 : Option Nat), (1 : ℚ), "ft")])].map Prod.fst) :=
  ⟨by decide, rfl, by decide⟩

lemma get_rise_and_setGo_skip :
    ∀ (pre rest : List Tr), (∀ tr ∈ pre, sunTds tr = []) →
      get_rise_and_setGo (pre ++ rest) = get_rise_and_setGo rest := by
  intro pre
  induction pre with
  | nil => intro rest _; rw [List.nil_append]
  | cons r rs ih =>
    intro rest h
    have hr : sunTds r = [] := h r (List.mem_cons_self r rs)
    rw [List.cons_append]
    have hstep : get_rise_and_setGo (r :: (rs ++ rest)) =
        get_rise_and_setGo (rs ++ rest) := by
      simp [get_rise_and_setGo, hr]
    rw [hstep]
    exact ih rest (fun tr htr => h tr (List.mem_cons_of_mem r htr))

lemma get_rise_and_setGo_none :
    ∀ rows : List Tr, (∀ tr ∈ rows, sunTds tr = []) →
      get_rise_and_setGo rows = .ok none := by
  intro rows
  induction rows with
  | nil => intro _; rfl
  | cons r rs ih =>
    intro h
    have hr : sunTds r = [] := h r (List.mem_cons_self r rs)
    have hstep : get_rise_and_setGo (r :: rs) = get_rise_and_setGo rs := by
      simp [get_rise_and_setGo, hr]
    rw [hstep]
    exact ih (fun tr htr => h tr (List.mem_cons_of_mem r htr))

/-- C4 (amended): get_rise_and_set returns the SunWindow sequence built
from the first table row containing sun-data cells, returning as soon as
that row is processed (rows before it contribute nothing, rows after it are
never examined); when no row has sun-data cells it returns Python None, not
an empty sequence. -/
theorem get_rise_and_set_first_sun_row :
    (∀ (pre post : List Tr) (r : Tr) (ths : List Th),
      (∀ tr ∈ pre, sunTds tr = []) → sunTds r ≠ [] →
      get_rise_and_set ⟨pre ++ r :: post, ths⟩ = get_rise_and_set ⟨[r], ths⟩) ∧
    (∀ (rows : List Tr) (ths : List Th),
      (∀ tr ∈ rows, sunTds tr = []) → get_rise_and_set ⟨rows, ths⟩ = .ok none) := by
  constructor
  · intro pre post r ths hpre hr
    show get_rise_and_setGo (pre ++ r :: post) = get_rise_and_setGo [r]
    rw [get_rise_and_setGo_skip pre (r :: post) hpre]
    simp [get_rise_and_setGo, hr]
  · intro rows ths h
    exact get_rise_and_setGo_none rows h

/-- Witness for C4's amended claim at concrete tables. -/
theorem get_rise_and_set_first_sun_row_witness :
    get_rise_and_set ⟨[sepRowA, sunRowAB, sepRowB], []⟩ =
      get_rise_and_set ⟨[sunRowAB], []⟩ ∧
    get_rise_and_set ⟨[sepRowA], []⟩ = .ok none := by
  constructor
  · exact get_rise_and_set_first_sun_row.1 [sepRowA] [sepRowB] sunRowAB []
      (by decide) (by decide)
  · exact get_rise_and_set_first_sun_row.2 [sepRowA] [] (by decide)

/-- C4 counterexample: on a table with no sun-data row, get_rise_and_set
returns Python None (falling off the row loop), which is not the empty
sequence the claim promises. -/
theorem get_rise_and_set_no_sun_row_none :
    get_rise_and_set ⟨[sepRowA], []⟩ = .ok none ∧
    (Except.ok (none : Option (List SunEntry)) :
      Except PyErr (Option (List SunEntry))) ≠ .ok (some []) :=
  ⟨rfl, by simp⟩
